import Mathlib

/-!
Verification of the tiktokdl-api normalization, retry and stream-relay core.

The provider result is an untyped JSON-like value; we embed it as `JValue`.
JavaScript-specific semantics (truthiness, `typeof x === 'object'`,
property lookup returning `undefined`, `||` chains) are modelled explicitly.
`undefined` and `null` are conflated into `JValue.null`: every use in the
source only tests truthiness or `typeof`, on which the two agree for the
shapes involved.  Numbers are modelled as `Int` (no NaN; no claim touches
float behaviour).
-/

/-- JSON-like value as produced by the scraping provider (src/index.js). -/
inductive JValue where
  | str (s : String)
  | num (n : Int)
  | bool (b : Bool)
  | null
  | arr (items : List JValue)
  | obj (fields : List (String × JValue))

/-- JavaScript truthiness of a `JValue` ( `!obj` tests in the source). -/
def truthy : JValue → Bool
  | .str s => s ≠ ""
  | .num n => n ≠ 0
  | .bool b => b
  | .null => false
  | .arr _ => true
  | .obj _ => true

/-- `typeof v === 'object'` in JavaScript: objects, arrays and `null`. -/
def isObjectType : JValue → Bool
  | .arr _ => true
  | .obj _ => true
  | .null => true
  | _ => false

/-- First-match lookup in an insertion-ordered field list (JS object property read). -/
def lookupField : List (String × JValue) → String → Option JValue
  | [], _ => none
  | (k, v) :: rest, key => if k = key then some v else lookupField rest key

/-- JS property read `v[key]`: `none` models `undefined`. -/
def jsLookup : JValue → String → Option JValue
  | .obj fields, key => lookupField fields key
  | _, _ => none

/-- JS `v[0]`: first array element, property "0" of an object, first
character of a string; otherwise `undefined`. -/
def jsIndex0 : JValue → Option JValue
  | .arr (x :: _) => some x
  | .arr [] => none
  | .obj fields => lookupField fields "0"
  | .str s =>
    match s.data with
    | c :: _ => some (.str (String.mk [c]))
    | [] => none
  | _ => none

/-- Value of a JS `||` chain: the first truthy operand, else the last operand. -/
def firstTruthy : List JValue → JValue
  | [] => .null
  | [x] => x
  | x :: y :: rest => if truthy x then x else firstTruthy (y :: rest)

/-- `startsWithChars pat l`: `l` begins with the characters of `pat`. -/
def startsWithChars : List Char → List Char → Bool
  | [], _ => true
  | _ :: _, [] => false
  | p :: ps, c :: cs => p = c && startsWithChars ps cs

/-- The test `/^https?:\/\//i.test(s)`: case-insensitive absolute HTTP(S)
URL prefix (the regex letters are ASCII, so per-character `toLower` is an
exact model of the non-unicode case-insensitive match). -/
def urlRe (s : String) : Bool :=
  let l := s.data.map Char.toLower
  startsWithChars "http://".data l || startsWithChars "https://".data l

/-- The candidate key list of `deepFindUrl` (src/index.js lines 138-142). -/
def candidateKeys : List String :=
  ["downloadUrl", "download", "url", "playAddr", "play_url", "videoUrl", "video", "video_url",
   "noWatermark", "no_watermark", "no_watermark_url", "watermarkless", "no_wm", "wmfree",
   "src", "source"]

/-- Body of the array-element loop inside the candidate-key scan of
`deepFindUrl` (lines 150-156): a URL string element is returned directly,
an object element is searched recursively (`f` is the depth+1 recursion). -/
def candElem (f : JValue → Option String) (it : JValue) : Option String :=
  match it with
  | .str s => if urlRe s then some s else none
  | _ => if isObjectType it then f it else none

/-- Handling of one present candidate-key value `w` in `deepFindUrl`
(lines 147-161): direct URL string, then non-empty array scan, then
recursion into any `typeof === 'object'` value (arrays fall through to the
recursion as well, exactly as in the source). -/
def candVal (f : JValue → Option String) (w : JValue) : Option String :=
  match (match w with | .str s => if urlRe s then some s else none | _ => none) with
  | some s => some s
  | none =>
    match (match w with
           | .arr (it :: its) => List.findSome? (candElem f) (it :: its)
           | _ => none) with
    | some s => some s
    | none => if isObjectType w then f w else none

/-- The candidate-key loop of `deepFindUrl` (lines 145-163):
`hasOwnProperty` then `candVal` for each key of the fixed list. -/
def candScan (f : JValue → Option String) (v : JValue) : Option String :=
  List.findSome? (fun k =>
    match jsLookup v k with
    | some w => candVal f w
    | none => none) candidateKeys

/-- One entry of the final generic key scan of `deepFindUrl`
(lines 172-181): direct URL string check, then recursion (the source also
recurses on non-URL strings; the recursion returns `null` for them). -/
def genericEntry (f : JValue → Option String) (val : JValue) : Option String :=
  match val with
  | .str s => if urlRe s then some s else f (.str s)
  | _ => f val

/-- One unfolding of `deepFindUrl` (src/index.js lines 134-184) with `f`
standing for the `depth + 1` recursive call: falsy guard, direct URL
string, candidate-key scan for `typeof === 'object'` values, then the
array-element / generic-key fallback scans. -/
def deepFindUrlStep (f : JValue → Option String) (v : JValue) : Option String :=
  if truthy v = false then none
  else
    match v with
    | .str s => if urlRe s then some s else none
    | _ =>
      match (if isObjectType v then candScan f v else none) with
      | some s => some s
      | none =>
        match v with
        | .arr items => List.findSome? f items
        | .obj fields => List.findSome? (fun kv => genericEntry f kv.2) fields
        | _ => none

/-- `deepFindUrl` of src/index.js (lines 134-184), with the depth counter
replaced by the remaining budget `b = 5 - depth`; the guard `depth > 4`
becomes `b = 0` and every `depth + 1` recursion becomes `b - 1`. -/
def deepFindUrlB : Nat → JValue → Option String
  | 0, _ => none
  | b + 1, v => deepFindUrlStep (deepFindUrlB b) v

/-- `deepFindUrl(obj, depth)` with the source's depth counting. -/
def deepFindUrl (v : JValue) (depth : Nat) : Option String :=
  deepFindUrlB (5 - depth) v

/-- One unfolding of `deepScan` (src/index.js lines 632-647) with `f`
standing for the `depth + 1` recursive call. -/
def deepScanStep (f : JValue → Option String) (v : JValue) : Option String :=
  if truthy v = false then none
  else
    match v with
    | .str s => if urlRe s then some s else none
    | .arr items => List.findSome? f items
    | .obj fields => List.findSome? (fun kv => f kv.2) fields
    | _ => none

/-- `deepScan` nested inside `findDownloadUrl` (src/index.js lines 632-647),
with budget `b = 4 - depth`: the guard `depth > 3` becomes `b = 0`. -/
def deepScanB : Nat → JValue → Option String
  | 0, _ => none
  | b + 1, v => deepScanStep (deepScanB b) v

/-- `deepScan(o, depth)` with the source's depth counting. -/
def deepScan (v : JValue) (depth : Nat) : Option String :=
  deepScanB (4 - depth) v

/-- The candidate key list of `findDownloadUrl` (src/index.js lines 590-594,
including the duplicated `no_watermark_url` entry). -/
def fdKeys : List String :=
  ["downloadUrl", "download", "url", "playAddr", "play_url", "videoUrl", "video", "video_url",
   "noWatermark", "no_watermark", "no_watermark_url", "no_watermark_url",
   "watermarkless", "no_wm", "wmfree"]

/-- Handling of one truthy candidate-key value in `findDownloadUrl`
(lines 597-605): a URL string is returned; for `typeof === 'object'` values
the `||` chain `w.url || w.src || w.playAddr || w.download || w[0]` is
checked for a URL string. -/
def fduKeyCheck (w : JValue) : Option String :=
  match w with
  | .str s => if urlRe s then some s else none
  | _ =>
    if isObjectType w then
      match firstTruthy [(jsLookup w "url").getD .null, (jsLookup w "src").getD .null,
                         (jsLookup w "playAddr").getD .null, (jsLookup w "download").getD .null,
                         (jsIndex0 w).getD .null] with
      | .str s => if urlRe s then some s else none
      | _ => none
    else none

/-- One element of the `obj.urls` array scan in `findDownloadUrl`
(lines 609-617). -/
def urlsElem (u : JValue) : Option String :=
  match u with
  | .str s => if urlRe s then some s else none
  | _ =>
    if truthy u && isObjectType u then
      match firstTruthy [(jsLookup u "url").getD .null, (jsLookup u "src").getD .null,
                         (jsLookup u "playAddr").getD .null, (jsLookup u "download").getD .null] with
      | .str s => if urlRe s then some s else none
      | _ => none
    else none

/-- A successful property lookup yields a strictly smaller value. -/
theorem lookupField_sizeOf_lt {fields : List (String × JValue)} {key : String} {w : JValue}
    (h : lookupField fields key = some w) : sizeOf w < sizeOf fields := by
  induction fields with
  | nil => simp [lookupField] at h
  | cons kv rest ih =>
    obtain ⟨k, v⟩ := kv
    rw [lookupField] at h
    split at h
    · cases h
      simp
      omega
    · have := ih h
      simp
      omega

/-- A successful JS property read yields a strictly smaller value. -/
theorem jsLookup_sizeOf_lt {v : JValue} {key : String} {w : JValue}
    (h : jsLookup v key = some w) : sizeOf w < sizeOf v := by
  cases v <;> simp [jsLookup] at h
  case obj fields =>
    have := lookupField_sizeOf_lt h
    simp
    omega

/-- `findDownloadUrl` of src/index.js (lines 584-650): string check,
candidate-key loop, `urls` array scan, recursion into truthy `video` and
`data` sub-objects, then the depth-bounded `deepScan`. -/
def findDownloadUrl (v : JValue) : Option String :=
  if truthy v = false then none
  else
    match (match v with | .str s => if urlRe s then some s else none | _ => none) with
    | some s => some s
    | none =>
      match List.findSome? (fun k =>
          let w := (jsLookup v k).getD .null
          if truthy w then fduKeyCheck w else none) fdKeys with
      | some s => some s
      | none =>
        match (match jsLookup v "urls" with
               | some (.arr (u :: us)) => List.findSome? urlsElem (u :: us)
               | _ => none) with
        | some s => some s
        | none =>
          match (match hv : jsLookup v "video" with
                 | some w => if truthy w then findDownloadUrl w else none
                 | none => none) with
          | some s => some s
          | none =>
            match (match hd : jsLookup v "data" with
                   | some w => if truthy w then findDownloadUrl w else none
                   | none => none) with
            | some s => some s
            | none => deepScanB 4 v
termination_by sizeOf v
decreasing_by
  · exact jsLookup_sizeOf_lt hv
  · exact jsLookup_sizeOf_lt hd

/-!  ## Provider client: `tryProvider` (src/index.js lines 118-131 / 653-667)

The provider is modelled as a function from the 0-based attempt index to
an outcome; the `setTimeout` backoff between attempts has no observable
effect on the returned value and is not modelled.  The result pairs the
outcome (`Except.error lastErr` models `throw lastErr`, where `lastErr`
is `none` exactly when no attempt was ever made) with the number of
provider calls performed. -/

/-- The attempt loop of `tryProvider`: `i` is the next attempt index,
`fuel` the remaining loop iterations, `lastErr` the last caught error. -/
def tryGo (f : Nat → Except String JValue) :
    Nat → Nat → Option String → Except (Option String) JValue × Nat
  | i, 0, lastErr => (.error lastErr, i)
  | i, fuel + 1, lastErr =>
    match f i with
    | .ok a => (.ok a, i + 1)
    | .error e => tryGo f (i + 1) fuel (some e)

/-- `tryProvider(url, attempts)`: run up to `attempts` provider calls,
returning the first success or throwing the last error. -/
def tryProvider (f : Nat → Except String JValue) (attempts : Nat) :
    Except (Option String) JValue × Nat :=
  tryGo f 0 attempts none

/-!  ## Route handlers (normalization layer) -/

/-- Body of a `GET /download` success response (src/index.js lines 89-96):
`{ok: true, downloadUrl, thumbnail, raw}`.  `downloadUrl` is an arbitrary
JS value there (the `||` chain is not restricted to URL strings). -/
structure GetResp where
  ok : Bool
  downloadUrl : JValue
  thumbnail : JValue
  raw : JValue

/-- Normalization performed by `GET /download` on a successful provider
result (src/index.js lines 84-96). -/
def getDownload (result : JValue) : GetResp :=
  let rvideo := (jsLookup result "video").getD .null
  let video := if truthy result && truthy rvideo then rvideo else result
  match video with
  | .str s => ⟨true, .str s, .null, result⟩
  | _ =>
    if truthy video && isObjectType video then
      let du := firstTruthy
        [(jsLookup video "noWatermark").getD .null,
         (jsLookup video "no_watermark").getD .null,
         (jsLookup video "url").getD .null,
         (jsLookup video "playAddr").getD .null,
         (jsLookup video "download").getD .null,
         (let u := (jsLookup video "urls").getD .null
          if truthy u then (jsIndex0 u).getD .null else u),
         JValue.null]
      let th := firstTruthy
        [(jsLookup video "thumbnail").getD .null,
         (jsLookup video "cover").getD .null,
         (jsLookup result "thumbnail").getD .null,
         JValue.null]
      ⟨true, du, th, result⟩
    else ⟨true, .null, .null, result⟩

/-- Outcome of `POST /api/download` after a successful provider call:
HTTP 200 `{ok: true, downloadUrl, thumbnail, raw}` or HTTP 502
`{ok: false, error: 'No download URL found from provider', raw}`. -/
inductive ApiResp where
  | success (downloadUrl : String) (thumbnail : JValue) (raw : JValue)
  | noUrl (raw : JValue)

/-- HTTP status of an `ApiResp`. -/
def apiStatus : ApiResp → Nat
  | .success _ _ _ => 200
  | .noUrl _ => 502

/-- Thumbnail chain used when a container yields a download URL
(src/index.js line 211). -/
def containerThumb (container result : JValue) : JValue :=
  firstTruthy
    [(jsLookup container "thumbnail").getD .null,
     (jsLookup container "cover").getD .null,
     (jsLookup container "thumb").getD .null,
     (jsLookup result "thumbnail").getD .null,
     (jsLookup result "cover").getD .null,
     JValue.null]

/-- The container loop of `POST /api/download` (src/index.js lines
207-214): falsy containers are skipped, the loop breaks on the first
truthy `deepFindUrl` result. -/
def scanContainers (result : JValue) : List JValue → Option (String × JValue)
  | [] => none
  | c :: cs =>
    if truthy c = false then scanContainers result cs
    else
      match deepFindUrlB 5 c with
      | some u => if u = "" then scanContainers result cs else some (u, containerThumb c result)
      | none => scanContainers result cs

/-- Normalization performed by `POST /api/download` (the `deepFindUrl`
handler, src/index.js lines 198-230) on a successful provider result. -/
def apiDownload (result : JValue) : ApiResp :=
  let rvideo := (jsLookup result "video").getD .null
  let rdata := (jsLookup result "data").getD .null
  let containers :=
    (if truthy result && truthy rvideo then [rvideo] else []) ++
    (if truthy result && truthy rdata then [rdata] else []) ++ [result]
  match scanContainers result containers with
  | some (u, t) => .success u t result
  | none =>
    match deepFindUrlB 5 result with
    | some u => if u = "" then .noUrl result else .success u JValue.null result
    | none => .noUrl result

/-- Normalization performed by the `findDownloadUrl`-based
`POST /api/download` handler (src/index.js lines 674-700). -/
def apiDownload2 (result : JValue) : ApiResp :=
  let rvideo := (jsLookup result "video").getD .null
  let du :=
    if truthy result && truthy rvideo then findDownloadUrl rvideo
    else findDownloadUrl result
  let th :=
    if truthy result && truthy rvideo then
      firstTruthy
        [(jsLookup result "thumbnail").getD .null,
         (jsLookup result "cover").getD .null,
         (if truthy rvideo then
            firstTruthy [(jsLookup rvideo "thumbnail").getD .null,
                         (jsLookup rvideo "cover").getD .null]
          else JValue.null)]
    else
      if truthy result then
        firstTruthy [(jsLookup result "thumbnail").getD .null,
                     (jsLookup result "cover").getD .null, JValue.null]
      else result
  match du with
  | some u => if u = "" then .noUrl result else .success u th result
  | none => .noUrl result

/-- Full `POST /api/download` outcome: missing input, provider failure
after retries, or the normalized response. -/
inductive RouteResp where
  | badRequest
  | providerFailed (details : Option String)
  | resp (r : ApiResp)

/-- HTTP status of a `RouteResp`. -/
def routeStatus : RouteResp → Nat
  | .badRequest => 400
  | .providerFailed _ => 502
  | .resp r => apiStatus r

/-- The `POST /api/download` handler (src/index.js lines 108-236):
input check, `tryProvider(url, 2)`, then normalization. -/
def apiDownloadFull (tiktokUrl : Option String)
    (provider : Nat → Except String JValue) : RouteResp :=
  match tiktokUrl with
  | none => .badRequest
  | some _ =>
    match (tryProvider provider 2).1 with
    | .ok result => .resp (apiDownload result)
    | .error e => .providerFailed e

/-!  ## Stream relay: `GET /stream` (src/index.js lines 242-304 / 771-844) -/

/-- The parts of a WHATWG-parsed URL that the handler reads. -/
structure ParsedUrl where
  protocol : String
  pathname : String

/-- The scheme test `/^https?:$/.test(parsed.protocol)`. -/
def protocolOk (p : String) : Bool := p == "http:" || p == "https:"

/-- What the `/stream` handler does before any outbound request:
either respond with a status (no outbound fetch is made) or proceed to
fetch the parsed URL. -/
inductive StreamStep where
  | respond (status : Nat)
  | fetch (u : ParsedUrl)

/-- Pre-fetch control flow of `GET /stream` (src/index.js lines 250-265):
`new URL(source)` throwing (modelled as `none`) is caught by the
handler's outer `catch`, which responds 500; a parsed URL with a scheme
other than `http:`/`https:` gets 400; otherwise the outbound fetch
happens. -/
def streamCheck : Option ParsedUrl → StreamStep
  | none => .respond 500
  | some p => if protocolOk p.protocol then .fetch p else .respond 400

/-!  ## Filename derivation of `GET /stream` (src/index.js lines 274-292)

The upstream `Content-Disposition` value is matched against the regex
`/filename\*?=(?:UTF-8'')?["']?([^;"']+)/i` and the capture is run
through `decodeURIComponent`; if that throws, or the regex does not
match, the fallback name is kept.  Without the header, the last path
segment is used when it contains a dot.  The regex is embedded below
with leftmost-match and greedy-with-backtracking semantics over the
character list. -/

/-- The double-quote character. -/
def dq : Char := Char.ofNat 34

/-- The apostrophe character. -/
def apos : Char := Char.ofNat 39

/-- Case-insensitive prefix test (ASCII letters only appear in the
patterns used). -/
def startsWithCI : List Char → List Char → Bool
  | [], _ => true
  | _ :: _, [] => false
  | p :: ps, c :: cs => p.toLower = c.toLower && startsWithCI ps cs

/-- The capture group `([^;"']+)`: longest non-empty prefix free of
`;`, `"` and the apostrophe. -/
def classCap (cs : List Char) : Option String :=
  match cs.takeWhile (fun c => ¬(c = ';' ∨ c = dq ∨ c = apos)) with
  | [] => none
  | tk => some (String.mk tk)

/-- `["']?([^;"']+)`: greedily consume an optional quote, backtracking to
the unconsumed alternative if the capture then fails. -/
def quoteThenCap (cs : List Char) : Option String :=
  match cs with
  | c :: rest => if c = dq ∨ c = apos then (classCap rest).orElse (fun _ => classCap cs)
                 else classCap cs
  | [] => none

/-- `(?:UTF-8'')?["']?([^;"']+)`: greedy optional `UTF-8''` with
backtracking. -/
def afterEq (cs : List Char) : Option String :=
  if startsWithCI ("UTF-8".data ++ [apos, apos]) cs then
    (quoteThenCap (cs.drop 7)).orElse (fun _ => quoteThenCap cs)
  else quoteThenCap cs

/-- Attempt to match `filename\*?=(?:UTF-8'')?["']?([^;"']+)` at the head
of `cs`. -/
def matchFilenameAt (cs : List Char) : Option String :=
  if startsWithCI "filename".data cs then
    match cs.drop 8 with
    | c1 :: c2 :: rest =>
      if c1 = '*' ∧ c2 = '=' then afterEq rest
      else if c1 = '=' then afterEq (c2 :: rest)
      else none
    | [c1] => if c1 = '=' then afterEq [] else none
    | [] => none
  else none

/-- Leftmost regex match: try each start position left to right. -/
def scanFilename : List Char → Option String
  | [] => none
  | c :: rest => (matchFilenameAt (c :: rest)).orElse (fun _ => scanFilename rest)

/-- `cd.match(/filename\*?=(?:UTF-8'')?["']?([^;"']+)/i)`: the capture of
the first match, if any. -/
def cdCapture (s : String) : Option String :=
  scanFilename s.data

/-- Value of a hexadecimal digit. -/
def hexVal (c : Char) : Option Nat :=
  if '0' ≤ c ∧ c ≤ '9' then some (c.toNat - 48)
  else if 'a' ≤ c ∧ c ≤ 'f' then some (c.toNat - 87)
  else if 'A' ≤ c ∧ c ≤ 'F' then some (c.toNat - 55)
  else none

/-- Read one `%HH` escape, returning the byte and the rest. -/
def pctByte : List Char → Option (Nat × List Char)
  | p :: h1 :: h2 :: rest =>
    if p = '%' then
      match hexVal h1, hexVal h2 with
      | some a, some b => some (16 * a + b, rest)
      | _, _ => none
    else none
  | _ => none

/-- Read one `%HH` UTF-8 continuation byte (`0x80`-`0xBF`), returning its
low six bits. -/
def contByte (cs : List Char) : Option (Nat × List Char) :=
  match pctByte cs with
  | some (b, rest) => if 128 ≤ b ∧ b ≤ 191 then some (b % 64, rest) else none
  | none => none

/-- `decodeURIComponent`: percent-escapes are decoded as strict UTF-8
byte sequences; any malformed escape or invalid/overlong/surrogate
sequence makes the whole call fail (JS throws `URIError`).  `fuel` is a
bound on the number of remaining characters; each step consumes at least
one character, so `fuel = s.length` always suffices. -/
def decodeGo : Nat → List Char → Option (List Char)
  | _, [] => some []
  | 0, _ :: _ => none
  | fuel + 1, c :: cs =>
    if c ≠ '%' then (decodeGo fuel cs).map (fun l => c :: l)
    else
      match pctByte (c :: cs) with
      | none => none
      | some (b, rest) =>
        if b < 128 then (decodeGo fuel rest).map (fun l => Char.ofNat b :: l)
        else if 194 ≤ b ∧ b ≤ 223 then
          match contByte rest with
          | some (x, rest2) =>
            (decodeGo fuel rest2).map (fun l => Char.ofNat ((b % 32) * 64 + x) :: l)
          | none => none
        else if 224 ≤ b ∧ b ≤ 239 then
          match contByte rest with
          | some (x, rest2) =>
            match contByte rest2 with
            | some (y, rest3) =>
              let cp := (b % 16) * 4096 + x * 64 + y
              if 2048 ≤ cp ∧ ¬(55296 ≤ cp ∧ cp ≤ 57343) then
                (decodeGo fuel rest3).map (fun l => Char.ofNat cp :: l)
              else none
            | none => none
          | none => none
        else if 240 ≤ b ∧ b ≤ 244 then
          match contByte rest with
          | some (x, rest2) =>
            match contByte rest2 with
            | some (y, rest3) =>
              match contByte rest3 with
              | some (z, rest4) =>
                let cp := (b % 8) * 262144 + x * 4096 + y * 64 + z
                if 65536 ≤ cp ∧ cp ≤ 1114111 then
                  (decodeGo fuel rest4).map (fun l => Char.ofNat cp :: l)
                else none
              | none => none
            | none => none
          | none => none
        else none

/-- `decodeURIComponent(s)`: `none` models a thrown `URIError`. -/
def decodeURIComponent (s : String) : Option String :=
  (decodeGo s.data.length s.data).map String.mk

/-- The fixed fallback filename. -/
def fallbackName : String := "tiktok_video.mp4"

/-- JS `pathname.split('/')` over the character list. -/
def splitSlash : List Char → List (List Char)
  | [] => [[]]
  | c :: rest =>
    let r := splitSlash rest
    if c = '/' then [] :: r
    else
      match r with
      | h :: t => (c :: h) :: t
      | [] => [[c]]

/-- The path-based fallback (lines 282-284): last `/`-segment of the
pathname if it is non-empty and contains a dot. -/
def pathFilename (pathname : String) : String :=
  let parts := splitSlash pathname.data
  let last := parts.getLast?.getD []
  if last ≠ [] ∧ last.contains '.' then String.mk last else fallbackName

/-- Filename derivation of `GET /stream` (lines 275-288): with a truthy
`Content-Disposition` header the regex capture is percent-decoded (a
decoding error keeps the fallback; the path fallback is NOT consulted);
without the header the path segment rule applies. -/
def deriveFilename (cd : Option String) (pathname : String) : String :=
  match cd with
  | some c =>
    if c ≠ "" then
      match cdCapture c with
      | some cap => (decodeURIComponent cap).getD fallbackName
      | none => fallbackName
    else pathFilename pathname
  | none => pathFilename pathname

/-- The `Content-Disposition` header emitted to the client (line 292):
`attachment; filename="<derived>"` by string concatenation, with no
escaping of the interpolated filename. -/
def contentDispositionOut (filename : String) : String :=
  "attachment; filename=" ++ String.mk [dq] ++ filename ++ String.mk [dq]

/-!  ## Specification-side predicates -/

/-- The first candidate key (in the fixed `candidateKeys` order) whose
value in `fields` is a URL-matching string, and that value.  This is the
key-order tie-break the specification describes; it reads the map only
through key lookup, so it does not depend on the field order (for
distinct keys). -/
def firstCandUrl (fields : List (String × JValue)) : Option String :=
  List.findSome? (fun k =>
    match lookupField fields k with
    | some (.str s) => if urlRe s then some s else none
    | _ => none) candidateKeys

/-- Every candidate key present in `fields` has a string value. -/
def allCandStr (fields : List (String × JValue)) : Bool :=
  candidateKeys.all (fun k =>
    match lookupField fields k with
    | some (.str _) => true
    | some _ => false
    | none => true)

/-- One unfolding of `noUrlBelow`. -/
def noUrlStep (f : JValue → Bool) : JValue → Bool
  | .str s => !(urlRe s)
  | .arr items => items.all f
  | .obj fields => fields.all (fun kv => f kv.2)
  | _ => true

/-- `noUrlBelow n v`: no URL-matching string occurs in `v` at structural
depth `< n` (the root itself is at depth 0). -/
def noUrlBelow : Nat → JValue → Bool
  | 0, _ => true
  | n + 1, v => noUrlStep (noUrlBelow n) v

/-!  ## Concrete example values -/

/-- A map whose earliest present candidate key (`downloadUrl`) holds a
nested object, while a later candidate key (`url`) holds a URL string. -/
def exNested : JValue :=
  .obj [("downloadUrl", .obj [("url", .str "http://nested")]),
        ("url", .str "http://top")]

/-- A value whose only URL string sits at structural depth 5 (one level
beyond the `depth > 4` guard of `deepFindUrl`), reached through
non-candidate keys. -/
def exDeep : JValue :=
  .obj [("a", .obj [("a", .obj [("a", .obj [("a", .obj [("url", .str "http://x")])])])])]

/-- The provider stub of the end-to-end test:
`{video: {noWatermark: "https://cdn.example/x.mp4", cover: "https://cdn.example/x.jpg"}}`. -/
def exProvider : JValue :=
  .obj [("video", .obj [("noWatermark", .str "https://cdn.example/x.mp4"),
                        ("cover", .str "https://cdn.example/x.jpg")])]

/-- A provider result whose `video.noWatermark` is a truthy non-URL string. -/
def exBadUrl : JValue :=
  .obj [("video", .obj [("noWatermark", .str "not-a-url")])]

/-- A provider function that fails on the first call and succeeds on the
second. -/
def exFailOnce : Nat → Except String JValue :=
  fun i => if i = 0 then .error "e0" else .ok .null

/-- A provider function that always fails with the same error. -/
def exAlwaysFail : Nat → Except String JValue :=
  fun _ => .error "boom"

/-!  ## Helper lemmas -/

theorem findSome_congrOn {α β : Type} {f g : α → Option β} :
    ∀ {l : List α}, (∀ a ∈ l, f a = g a) → l.findSome? f = l.findSome? g := by
  intro l
  induction l with
  | nil => intro _; rfl
  | cons a as ih =>
    intro h
    rw [List.findSome?_cons, List.findSome?_cons, h a (List.mem_cons_self a as)]
    cases g a with
    | some b => rfl
    | none => exact ih (fun x hx => h x (List.mem_cons_of_mem a hx))

theorem lookupField_exists_mem {fields : List (String × JValue)} {key : String} {w : JValue}
    (h : lookupField fields key = some w) : ∃ k, (k, w) ∈ fields := by
  induction fields with
  | nil => simp [lookupField] at h
  | cons kv rest ih =>
    obtain ⟨k, v⟩ := kv
    rw [lookupField] at h
    split at h
    · cases h
      exact ⟨k, List.mem_cons_self _ _⟩
    · obtain ⟨k', hk'⟩ := ih h
      exact ⟨k', List.mem_cons_of_mem _ hk'⟩

theorem noUrlBelow_mono : ∀ {n m : Nat}, n ≤ m → ∀ {v : JValue},
    noUrlBelow m v = true → noUrlBelow n v = true := by
  intro n
  induction n with
  | zero => intro m _ v _; rfl
  | succ n ih =>
    intro m hnm v h
    obtain ⟨m', rfl⟩ : ∃ m', m = m' + 1 := ⟨m - 1, by omega⟩
    have hn : n ≤ m' := by omega
    cases v with
    | str s => exact h
    | num k => rfl
    | bool b => rfl
    | null => rfl
    | arr items =>
      rw [noUrlBelow, noUrlStep, List.all_eq_true] at h ⊢
      exact fun x hx => ih hn (h x hx)
    | obj fields =>
      rw [noUrlBelow, noUrlStep, List.all_eq_true] at h ⊢
      exact fun x hx => ih hn (h x hx)

theorem noUrlBelow_str {n : Nat} {s : String} (h : noUrlBelow (n + 1) (.str s) = true) :
    urlRe s = false := by
  rw [noUrlBelow, noUrlStep, Bool.not_eq_true'] at h
  exact h

theorem noUrlBelow_arr_mem {n : Nat} {items : List JValue} {it : JValue}
    (h : noUrlBelow (n + 1) (.arr items) = true) (hm : it ∈ items) :
    noUrlBelow n it = true := by
  rw [noUrlBelow, noUrlStep, List.all_eq_true] at h
  exact h it hm

theorem noUrlBelow_obj_mem {n : Nat} {fields : List (String × JValue)} {k : String} {w : JValue}
    (h : noUrlBelow (n + 1) (.obj fields) = true) (hm : (k, w) ∈ fields) :
    noUrlBelow n w = true := by
  rw [noUrlBelow, noUrlStep, List.all_eq_true] at h
  exact h (k, w) hm

theorem noUrlBelow_null (n : Nat) : noUrlBelow n JValue.null = true := by
  cases n <;> rfl

theorem noUrlBelow_num (n : Nat) (k : Int) : noUrlBelow n (JValue.num k) = true := by
  cases n <;> rfl

theorem noUrlBelow_bool (n : Nat) (b : Bool) : noUrlBelow n (JValue.bool b) = true := by
  cases n <;> rfl

/-!  ### Soundness: every URL the search returns passes the URL test -/

theorem candElem_sound {f : JValue → Option String}
    (hf : ∀ v u, f v = some u → urlRe u = true) :
    ∀ it u, candElem f it = some u → urlRe u = true := by
  intro it u h
  cases it <;> simp only [candElem] at h
  case str s =>
    split at h
    · cases h
      assumption
    · cases h
  all_goals
    split at h
    · exact hf _ _ h
    · cases h

theorem candVal_sound {f : JValue → Option String}
    (hf : ∀ v u, f v = some u → urlRe u = true) :
    ∀ w u, candVal f w = some u → urlRe u = true := by
  intro w u h
  simp only [candVal] at h
  split at h
  · -- the direct string branch returned `some u`
    rename_i heq
    split at heq
    · split at heq
      · cases heq
        cases h
        assumption
      · cases heq
    · cases heq
  · -- array scan, then object recursion
    split at h
    · rename_i heq
      split at heq
      · obtain ⟨a, _, ha⟩ := List.exists_of_findSome?_eq_some heq
        cases h
        exact candElem_sound hf _ _ ha
      · cases heq
    · split at h
      · exact hf _ _ h
      · cases h

theorem candScan_sound {f : JValue → Option String}
    (hf : ∀ v u, f v = some u → urlRe u = true) :
    ∀ v u, candScan f v = some u → urlRe u = true := by
  intro v u h
  obtain ⟨k, _, hk⟩ := List.exists_of_findSome?_eq_some h
  split at hk
  · exact candVal_sound hf _ _ hk
  · cases hk

theorem genericEntry_sound {f : JValue → Option String}
    (hf : ∀ v u, f v = some u → urlRe u = true) :
    ∀ val u, genericEntry f val = some u → urlRe u = true := by
  intro val u h
  cases val <;> simp only [genericEntry] at h
  case str s =>
    split at h
    · cases h
      assumption
    · exact hf _ _ h
  all_goals exact hf _ _ h

theorem deepFindUrlStep_sound {f : JValue → Option String}
    (hf : ∀ v u, f v = some u → urlRe u = true) :
    ∀ v u, deepFindUrlStep f v = some u → urlRe u = true := by
  intro v u h
  simp only [deepFindUrlStep] at h
  split at h
  · cases h
  · split at h
    · -- v is a string
      split at h
      · cases h
        assumption
      · cases h
    · -- candidate scan, then the fallback scans
      split at h
      · rename_i heq
        split at heq
        · cases h
          exact candScan_sound hf _ _ heq
        · cases heq
      · split at h
        · obtain ⟨a, _, ha⟩ := List.exists_of_findSome?_eq_some h
          exact hf _ _ ha
        · obtain ⟨a, _, ha⟩ := List.exists_of_findSome?_eq_some h
          exact genericEntry_sound hf _ _ ha
        · cases h

theorem deepFindUrlB_sound : ∀ (b : Nat) (v : JValue) (u : String),
    deepFindUrlB b v = some u → urlRe u = true := by
  intro b
  induction b with
  | zero => intro v u h; cases h
  | succ b ih => exact deepFindUrlStep_sound ih

/-!  ### Depth bound: values whose URL strings all sit deep enough are
not found -/

theorem candScan_none_of_lookup {f : JValue → Option String} {v : JValue}
    (h : ∀ k, jsLookup v k = none) : candScan f v = none := by
  refine List.findSome?_eq_none_iff.mpr fun k _ => ?_
  rw [h k]

theorem candVal_none {f : JValue → Option String} {n : Nat}
    (hf : ∀ w, noUrlBelow (2 * n + 1) w = true → f w = none)
    {w : JValue} (hw : noUrlBelow (2 * n + 2) w = true) : candVal f w = none := by
  have hw1 : noUrlBelow (2 * n + 1) w = true := noUrlBelow_mono (by omega) hw
  cases w with
  | str s =>
    have : urlRe s = false := noUrlBelow_str (n := 2 * n + 1) hw
    simp [candVal, this, isObjectType]
  | arr items =>
    have helems : ∀ it ∈ items, noUrlBelow (2 * n + 1) it = true := by
      intro it hit
      exact noUrlBelow_arr_mem (n := 2 * n + 1) hw hit
    have harr : ∀ (it : JValue) (its : List JValue), items = it :: its →
        List.findSome? (candElem f) (it :: its) = none := by
      intro it its hits
      refine List.findSome?_eq_none_iff.mpr fun x hx => ?_
      have hxm : x ∈ items := hits ▸ hx
      have hx1 : noUrlBelow (2 * n + 1) x = true := helems x hxm
      cases x with
      | str s =>
        have : urlRe s = false := noUrlBelow_str (n := 2 * n) hx1
        simp [candElem, this]
      | arr l => simp [candElem, isObjectType, hf _ hx1]
      | obj l => simp [candElem, isObjectType, hf _ hx1]
      | null => simp [candElem, isObjectType, hf _ hx1]
      | num k => simp [candElem, isObjectType]
      | bool b => simp [candElem, isObjectType]
    cases items with
    | nil => simp [candVal, isObjectType, hf _ hw1]
    | cons it its => simp [candVal, harr it its rfl, isObjectType, hf _ hw1]
  | obj fields => simp [candVal, isObjectType, hf _ hw1]
  | null => simp [candVal, isObjectType, hf _ hw1]
  | num k => simp [candVal, isObjectType]
  | bool b => simp [candVal, isObjectType]

theorem deepFindUrlStep_none {f : JValue → Option String} {n : Nat}
    (hf : ∀ w, noUrlBelow (2 * n + 1) w = true → f w = none)
    {v : JValue} (hv : noUrlBelow (2 * n + 3) v = true) :
    deepFindUrlStep f v = none := by
  cases v with
  | null => rfl
  | num k => simp [deepFindUrlStep, truthy, isObjectType]
  | bool b => cases b <;> simp [deepFindUrlStep, truthy, isObjectType]
  | str s =>
    have : urlRe s = false := noUrlBelow_str (n := 2 * n + 2) hv
    simp [deepFindUrlStep, truthy, this]
  | arr items =>
    have hcand : candScan f (JValue.arr items) = none :=
      candScan_none_of_lookup fun k => rfl
    have helems : List.findSome? f items = none := by
      refine List.findSome?_eq_none_iff.mpr fun it hit => ?_
      have h2 : noUrlBelow (2 * n + 2) it = true :=
        noUrlBelow_arr_mem (n := 2 * n + 2) hv hit
      exact hf it (noUrlBelow_mono (by omega) h2)
    simp [deepFindUrlStep, truthy, isObjectType, hcand, helems]
  | obj fields =>
    have hcand : candScan f (JValue.obj fields) = none := by
      refine List.findSome?_eq_none_iff.mpr fun k _ => ?_
      cases hlk : jsLookup (JValue.obj fields) k with
      | none => simp
      | some w =>
        simp only []
        obtain ⟨k', hk'⟩ := lookupField_exists_mem (hlk : lookupField fields k = some w)
        have h2 : noUrlBelow (2 * n + 2) w = true :=
          noUrlBelow_obj_mem (n := 2 * n + 2) hv hk'
        exact candVal_none hf h2
    have hgen : List.findSome? (fun kv => genericEntry f kv.2) fields = none := by
      refine List.findSome?_eq_none_iff.mpr fun kv hkv => ?_
      have h2 : noUrlBelow (2 * n + 2) kv.2 = true := by
        obtain ⟨k', w'⟩ := kv
        exact noUrlBelow_obj_mem (n := 2 * n + 2) hv hkv
      cases hval : kv.2 with
      | str s =>
        have hs : urlRe s = false := noUrlBelow_str (n := 2 * n + 1) (hval ▸ h2)
        have hrec : f (JValue.str s) = none := by
          refine hf _ ?_
          rw [noUrlBelow, noUrlStep, hs]
          rfl
        simp [genericEntry, hs, hrec]
      | arr l => simp [genericEntry, hf _ (noUrlBelow_mono (by omega) (hval ▸ h2))]
      | obj l => simp [genericEntry, hf _ (noUrlBelow_mono (by omega) (hval ▸ h2))]
      | null => simp [genericEntry, hf _ (noUrlBelow_mono (by omega) (hval ▸ h2))]
      | num k2 => simp [genericEntry, hf _ (noUrlBelow_mono (by omega) (hval ▸ h2))]
      | bool b2 => simp [genericEntry, hf _ (noUrlBelow_mono (by omega) (hval ▸ h2))]
    simp [deepFindUrlStep, truthy, isObjectType, hcand, hgen]

theorem deepFindUrlB_none : ∀ (b : Nat) {v : JValue},
    noUrlBelow (2 * b + 1) v = true → deepFindUrlB b v = none := by
  intro b
  induction b with
  | zero => intro v _; rfl
  | succ b ih =>
    intro v hv
    have hv' : noUrlBelow (2 * b + 3) v = true := by
      have : 2 * (b + 1) + 1 = 2 * b + 3 := by omega
      rw [this] at hv
      exact hv
    exact deepFindUrlStep_none (fun w hw => ih hw) hv'

theorem deepScanStep_none {f : JValue → Option String} {n : Nat}
    (hf : ∀ w, noUrlBelow n w = true → f w = none)
    {v : JValue} (hv : noUrlBelow (n + 1) v = true) :
    deepScanStep f v = none := by
  cases v with
  | null => rfl
  | num k => simp [deepScanStep, truthy]
  | bool b => cases b <;> simp [deepScanStep, truthy]
  | str s =>
    have : urlRe s = false := noUrlBelow_str hv
    simp [deepScanStep, truthy, this]
  | arr items =>
    have : List.findSome? f items = none :=
      List.findSome?_eq_none_iff.mpr fun it hit => hf it (noUrlBelow_arr_mem hv hit)
    simp [deepScanStep, truthy, this]
  | obj fields =>
    have : List.findSome? (fun kv => f kv.2) fields = none := by
      refine List.findSome?_eq_none_iff.mpr fun kv hkv => ?_
      obtain ⟨k', w'⟩ := kv
      exact hf _ (noUrlBelow_obj_mem hv hkv)
    simp [deepScanStep, truthy, this]

theorem deepScanB_none : ∀ (b : Nat) {v : JValue},
    noUrlBelow b v = true → deepScanB b v = none := by
  intro b
  induction b with
  | zero => intro v _; rfl
  | succ b ih => exact fun hv => deepScanStep_none (fun w hw => ih hw) hv

/-!  ### The candidate-key scan on all-string candidate values -/

theorem candVal_str (f : JValue → Option String) (s : String) :
    candVal f (.str s) = (if urlRe s then some s else none) := by
  by_cases hu : urlRe s = true
  · simp [candVal, hu]
  · simp [candVal, Bool.not_eq_true _ ▸ hu, isObjectType]

theorem candScan_eq_firstCandUrl {fields : List (String × JValue)}
    (h : allCandStr fields = true) (f : JValue → Option String) :
    candScan f (.obj fields) = firstCandUrl fields := by
  refine findSome_congrOn fun k hk => ?_
  have hcond := List.all_eq_true.mp h k hk
  cases hlk : lookupField fields k with
  | none => simp [jsLookup, hlk]
  | some w =>
    cases w with
    | str s => simp [jsLookup, hlk, candVal_str]
    | num n => rw [hlk] at hcond; cases hcond
    | bool b => rw [hlk] at hcond; cases hcond
    | null => rw [hlk] at hcond; cases hcond
    | arr l => rw [hlk] at hcond; cases hcond
    | obj l => rw [hlk] at hcond; cases hcond

/-!  ### Retry loop -/

theorem tryGo_ok {f : Nat → Except String JValue} {a : JValue} :
    ∀ (N : Nat) {i fuel : Nat} {lastErr : Option String},
      (∀ j, j < N → ∃ e, f (i + j) = .error e) → f (i + N) = .ok a → N < fuel →
      tryGo f i fuel lastErr = (.ok a, i + N + 1) := by
  intro N
  induction N with
  | zero =>
    intro i fuel lastErr _ hok hlt
    obtain ⟨fuel', rfl⟩ : ∃ k, fuel = k + 1 := ⟨fuel - 1, by omega⟩
    have hok' : f i = .ok a := by simpa using hok
    rw [tryGo, hok']
  | succ N ih =>
    intro i fuel lastErr herr hok hlt
    obtain ⟨fuel', rfl⟩ : ∃ k, fuel = k + 1 := ⟨fuel - 1, by omega⟩
    obtain ⟨e, he⟩ := herr 0 (by omega)
    rw [Nat.add_zero] at he
    rw [tryGo, he]
    have h1 : ∀ j, j < N → ∃ e', f (i + 1 + j) = .error e' := by
      intro j hj
      obtain ⟨e', he'⟩ := herr (j + 1) (by omega)
      exact ⟨e', by rw [show i + 1 + j = i + (j + 1) by omega]; exact he'⟩
    have h2 : f (i + 1 + N) = .ok a := by
      rw [show i + 1 + N = i + (N + 1) by omega]
      exact hok
    have h3 := @ih (i + 1) fuel' (some e) h1 h2 (show N < fuel' by omega)
    have harith : i + 1 + N + 1 = i + (N + 1) + 1 := by omega
    exact h3.trans (by rw [harith])

theorem tryGo_err {f : Nat → Except String JValue} {e : Nat → String} :
    ∀ (fuel : Nat) {i : Nat} {lastErr : Option String},
      (∀ j, j < fuel → f (i + j) = .error (e (i + j))) → 0 < fuel →
      tryGo f i fuel lastErr = (.error (some (e (i + fuel - 1))), i + fuel) := by
  intro fuel
  induction fuel with
  | zero => intro i lastErr _ h; omega
  | succ fuel ih =>
    intro i lastErr herr _
    have he : f i = .error (e i) := by
      have := herr 0 (by omega)
      rwa [Nat.add_zero] at this
    rw [tryGo, he]
    cases Nat.eq_zero_or_pos fuel with
    | inl h0 =>
      subst h0
      rfl
    | inr hpos =>
      have h1 : ∀ j, j < fuel → f (i + 1 + j) = .error (e (i + 1 + j)) := by
        intro j hj
        have := herr (j + 1) (by omega)
        rwa [show i + (j + 1) = i + 1 + j by omega] at this
      have h2 := @ih (i + 1) (some (e i)) h1 hpos
      have harith1 : i + 1 + fuel - 1 = i + (fuel + 1) - 1 := by omega
      have harith2 : i + 1 + fuel = i + (fuel + 1) := by omega
      exact h2.trans (by rw [harith1, harith2])

/-!  ### Soundness of the `POST /api/download` normalization -/

theorem scanContainers_sound {result : JValue} :
    ∀ {cs : List JValue} {u : String} {t : JValue},
      scanContainers result cs = some (u, t) → ∃ c, deepFindUrlB 5 c = some u := by
  intro cs
  induction cs with
  | nil => intro u t h; cases h
  | cons c cs ih =>
    intro u t h
    rw [scanContainers] at h
    split at h
    · exact ih h
    · split at h
      · split at h
        · exact ih h
        · cases h
          exact ⟨c, by assumption⟩
      · exact ih h

theorem apiDownload_sound {result : JValue} {u : String} {t raw : JValue}
    (h : apiDownload result = .success u t raw) : urlRe u = true := by
  rw [apiDownload] at h
  split at h
  · rename_i heq
    cases h
    obtain ⟨c, hc⟩ := scanContainers_sound heq
    exact deepFindUrlB_sound _ _ _ hc
  · split at h
    · split at h
      · cases h
      · cases h
        exact deepFindUrlB_sound _ _ _ (by assumption)
    · cases h

/-!  ## Claims -/

/-- Claim C1, counterexample: for the map `{downloadUrl: {url:
"http://nested"}, url: "http://top"}`, both `deepFindUrl` and
`findDownloadUrl` return the nested `"http://nested"`, although the
earliest candidate key whose value is a URL-matching string is `url`
with value `"http://top"`; so the result is not the value of that
earliest candidate key. -/
theorem claimC1_counterexample :
    deepFindUrl exNested 0 = some "http://nested" ∧
    findDownloadUrl exNested = some "http://nested" ∧
    firstCandUrl [("downloadUrl", .obj [("url", .str "http://nested")]),
      ("url", .str "http://top")] = some "http://top" ∧
    "http://nested" ≠ "http://top" := by
  refine ⟨by decide, ?_, by decide, by decide⟩
  simp [exNested, findDownloadUrl, fdKeys, jsLookup, lookupField, fduKeyCheck, truthy,
    isObjectType, firstTruthy, urlRe, jsIndex0, startsWithChars]

/-- Claim C1, amended: for every map-like input all of whose present
candidate-key values are strings, with at least one matching the URL
pattern, `deepFindUrl` returns the value of the earliest candidate key
(in the fixed list order) holding a URL-matching string, independently
of the map's own key order; on maps where an earlier candidate key holds
a non-string value the recursion into that value may win instead. -/
theorem claimC1_theorem : ∀ (fields : List (String × JValue)) (s : String),
    allCandStr fields = true → firstCandUrl fields = some s →
    deepFindUrl (.obj fields) 0 = some s := by
  intro fields s h1 h2
  show deepFindUrlB (4 + 1) (.obj fields) = some s
  rw [deepFindUrlB]
  simp only [deepFindUrlStep, truthy, isObjectType, Bool.true_eq_false, if_false, if_true]
  rw [candScan_eq_firstCandUrl h1, h2]

/-- Claim C1, witness: on `{url: "http://a", download: "http://b"}` (in
either insertion order) the candidate-key order makes `download` win. -/
theorem claimC1_witness :
    allCandStr [("url", .str "http://a"), ("download", .str "http://b")] = true ∧
    deepFindUrl (.obj [("url", .str "http://a"), ("download", .str "http://b")]) 0
      = some "http://b" ∧
    deepFindUrl (.obj [("download", .str "http://b"), ("url", .str "http://a")]) 0
      = some "http://b" :=
  ⟨by decide,
   claimC1_theorem _ _ (by decide) (by decide),
   claimC1_theorem _ _ (by decide) (by decide)⟩

/-- Claim C2, counterexample: `exDeep` has its only URL-matching string
at structural depth 5, strictly beyond the `depth > 4` bound of
`deepFindUrl`, yet `deepFindUrl` finds it (candidate-key string values
are tested at the parent's depth, without a recursive call). -/
theorem claimC2_counterexample :
    noUrlBelow 5 exDeep = true ∧ deepFindUrl exDeep 0 = some "http://x" :=
  ⟨by decide, by decide⟩

/-- Claim C2, amended: `deepScan` (bound 3) finds no URL string nested
beyond its bound: if every URL string of the input sits at depth ≥ 4,
it returns absent.  For `deepFindUrl` (guard `depth > 4`) the guarantee
only holds two structural levels per recursion step later: if every URL
string sits at depth ≥ 11, `deepFindUrl` returns absent. -/
theorem claimC2_theorem :
    (∀ v : JValue, noUrlBelow 4 v = true → deepScan v 0 = none) ∧
    (∀ v : JValue, noUrlBelow 11 v = true → deepFindUrl v 0 = none) :=
  ⟨fun _ h => deepScanB_none 4 h, fun _ h => deepFindUrlB_none 5 h⟩

/-- Claim C2, witness: both bounds applied to the value `null`. -/
theorem claimC2_witness :
    deepScan JValue.null 0 = none ∧ deepFindUrl JValue.null 0 = none :=
  ⟨claimC2_theorem.1 _ (by decide), claimC2_theorem.2 _ (by decide)⟩

/-- Claim C3: `deepFindUrl` is a total function (the embedding is a
plain `def`, so it terminates and cannot throw); on any input containing
no URL-matching string at any depth it returns absent, and whenever it
returns a string that string matches the URL pattern. -/
theorem claimC3_theorem :
    (∀ v : JValue, (∀ n, noUrlBelow n v = true) → deepFindUrl v 0 = none) ∧
    (∀ (depth : Nat) (v : JValue) (u : String),
       deepFindUrl v depth = some u → urlRe u = true) :=
  ⟨fun _ h => deepFindUrlB_none 5 (h 11),
   fun d _ _ h => deepFindUrlB_sound (5 - d) _ _ h⟩

/-- Claim C3, witness: the URL-free value `null` yields absent, and a
returned URL passes the pattern test. -/
theorem claimC3_witness :
    deepFindUrl JValue.null 0 = none ∧ urlRe "http://x" = true :=
  ⟨claimC3_theorem.1 JValue.null (fun n => noUrlBelow_null n),
   claimC3_theorem.2 0 (.str "http://x") "http://x" (by decide)⟩

/-- Claim C4, counterexample: `GET /download` performs no URL-pattern
check: with provider result `{video: {noWatermark: "not-a-url"}}` it
responds `ok: true` with `downloadUrl = "not-a-url"`, which does not
match `^https?://`. -/
theorem claimC4_counterexample :
    (getDownload exBadUrl).ok = true ∧
    (getDownload exBadUrl).downloadUrl = .str "not-a-url" ∧
    urlRe "not-a-url" = false :=
  ⟨rfl, rfl, by decide⟩

/-- Claim C4, amended: the invariant holds for the `deepFindUrl`-based
`POST /api/download` handler: every success response's `downloadUrl`
matches `^https?://`.  `GET /download` does not validate the pattern. -/
theorem claimC4_theorem : ∀ (result : JValue) (u : String) (t raw : JValue),
    apiDownload result = .success u t raw → urlRe u = true :=
  fun _ _ _ _ h => apiDownload_sound h

/-- Claim C4, witness: the invariant applied to the end-to-end provider
stub. -/
theorem claimC4_witness : urlRe "https://cdn.example/x.mp4" = true :=
  claimC4_theorem exProvider "https://cdn.example/x.mp4"
    (.str "https://cdn.example/x.jpg") exProvider rfl

/-- Claim C5: a provider failing on its first `N` calls and succeeding
on call `N + 1`, run with `maxAttempts > N`, yields the success value
after exactly `N + 1` calls; a provider failing on every one of
`maxAttempts ≥ 1` attempts makes `tryProvider` raise the last attempt's
error after exactly `maxAttempts` calls (hence no more than
`maxAttempts`). -/
theorem claimC5_theorem :
    (∀ (f : Nat → Except String JValue) (N : Nat) (a : JValue) (attempts : Nat),
       (∀ i, i < N → ∃ e, f i = .error e) → f N = .ok a → N < attempts →
       tryProvider f attempts = (.ok a, N + 1)) ∧
    (∀ (f : Nat → Except String JValue) (e : Nat → String) (attempts : Nat),
       0 < attempts → (∀ i, i < attempts → f i = .error (e i)) →
       tryProvider f attempts = (.error (some (e (attempts - 1))), attempts)) := by
  constructor
  · intro f N a attempts h1 h2 h3
    have h1' : ∀ j, j < N → ∃ e, f (0 + j) = .error e := by
      intro j hj
      rw [Nat.zero_add]
      exact h1 j hj
    have h2' : f (0 + N) = .ok a := by rw [Nat.zero_add]; exact h2
    have h4 := @tryGo_ok f a N 0 attempts none h1' h2' h3
    simpa using h4
  · intro f e attempts h0 herr
    have herr' : ∀ j, j < attempts → f (0 + j) = .error (e (0 + j)) := by
      intro j hj
      rw [Nat.zero_add]
      exact herr j hj
    have h4 := @tryGo_err f e attempts 0 none herr' h0
    simpa using h4

/-- Claim C5, witness: a provider failing once then succeeding, with 2
attempts, succeeds after 2 calls; a provider always failing, with 2
attempts, raises the last error after 2 calls. -/
theorem claimC5_witness :
    tryProvider exFailOnce 2 = (.ok JValue.null, 2) ∧
    tryProvider exAlwaysFail 2 = (.error (some "boom"), 2) :=
  ⟨claimC5_theorem.1 exFailOnce 1 JValue.null 2
     (fun i hi => ⟨"e0", by
        have hi0 : i = 0 := by omega
        subst hi0
        rfl⟩)
     rfl (by omega),
   claimC5_theorem.2 exAlwaysFail (fun _ => "boom") 2 (by omega) (fun _ _ => rfl)⟩

/-- Claim C6, counterexample: on exhaustion `tryProvider` throws the
bare last error (`throw lastErr`), with no attempt-count wrapping: the
raised value for 2 attempts equals the underlying error and also equals
the raised value for 5 attempts, so it carries no attempt count. -/
theorem claimC6_counterexample :
    (tryProvider exAlwaysFail 2).1 = .error (some "boom") ∧
    (tryProvider exAlwaysFail 2).1 = (tryProvider exAlwaysFail 5).1 :=
  ⟨rfl, rfl⟩

/-- Claim C6, amended: on exhaustion (`maxAttempts ≥ 1` failing
attempts) `tryProvider` raises exactly the most recent underlying
error, unchanged; attempt numbers appear only in log output. -/
theorem claimC6_theorem : ∀ (f : Nat → Except String JValue) (e : Nat → String) (attempts : Nat),
    0 < attempts → (∀ i, i < attempts → f i = .error (e i)) →
    (tryProvider f attempts).1 = .error (some (e (attempts - 1))) := by
  intro f e attempts h0 herr
  have herr' : ∀ j, j < attempts → f (0 + j) = .error (e (0 + j)) := by
    intro j hj
    rw [Nat.zero_add]
    exact herr j hj
  have h := @tryGo_err f e attempts 0 none herr' h0
  show (tryGo f 0 attempts none).1 = _
  rw [h]
  simp

/-- Claim C6, witness: the always-failing provider with 2 attempts. -/
theorem claimC6_witness :
    (tryProvider exAlwaysFail 2).1 = .error (some "boom") :=
  claimC6_theorem exAlwaysFail (fun _ => "boom") 2 (by omega) (fun _ _ => rfl)

/-- Claim C7, counterexample: when `new URL(source)` throws (the url
parameter does not parse), the exception is caught by the handler's
generic `catch`, which responds 500, not 400. -/
theorem claimC7_counterexample :
    streamCheck none = .respond 500 ∧ (500 : Nat) ≠ 400 :=
  ⟨rfl, by decide⟩

/-- Claim C7, amended: a parsed url with a scheme other than
`http:`/`https:` gets a 400 response and no outbound fetch is made
(`respond` excludes the `fetch` step); an unparseable url also triggers
no outbound fetch but is answered 500 through the generic catch. -/
theorem claimC7_theorem :
    (∀ p : ParsedUrl, protocolOk p.protocol = false → streamCheck (some p) = .respond 400) ∧
    streamCheck none = .respond 500 := by
  refine ⟨fun p h => ?_, rfl⟩
  simp [streamCheck, h]

/-- Claim C7, witness: `ftp://example.com/x` parses with protocol
`ftp:` and is rejected with 400 before any fetch. -/
theorem claimC7_witness :
    streamCheck (some ⟨"ftp:", "/x"⟩) = .respond 400 :=
  claimC7_theorem.1 ⟨"ftp:", "/x"⟩ (by decide)

/-- Claim C8, counterexample: with an upstream `Content-Disposition`
header present but yielding no filename (`inline`) and source path
`/v/123/video.mp4`, the code keeps the fixed fallback name instead of
falling back to the path segment `video.mp4` as the claim's else-chain
requires (the path rule only runs when the header is absent). -/
theorem claimC8_counterexample :
    deriveFilename (some "inline") "/v/123/video.mp4" = "tiktok_video.mp4" ∧
    "tiktok_video.mp4" ≠ "video.mp4" :=
  ⟨by decide, by decide⟩

/-- Claim C8, amended: with a `Content-Disposition` header the regex
capture (plain or `filename*=UTF-8''` form) is percent-decoded and
used, and a header that yields no filename keeps the fixed fallback
without consulting the path; without the header, the last path segment
is used when it contains a dot, else the fixed fallback.  In particular
`filename="clip.mp4"` gives `clip.mp4` and path `/v/123/video.mp4`
gives `video.mp4`. -/
theorem claimC8_theorem :
    (∀ path, deriveFilename (some "attachment; filename=\"clip.mp4\"") path = "clip.mp4") ∧
    (∀ path, deriveFilename (some "inline") path = "tiktok_video.mp4") ∧
    deriveFilename none "/v/123/video.mp4" = "video.mp4" ∧
    deriveFilename none "/v/123/clip" = "tiktok_video.mp4" ∧
    (∀ path, deriveFilename (some "attachment; filename*=UTF-8''a%20b.mp4") path = "a b.mp4") :=
  ⟨fun _ => rfl, fun _ => rfl, by decide, by decide, fun _ => rfl⟩

/-- Claim C9: `POST /api/download` with any `tiktokUrl`, against a
provider returning
`{video: {noWatermark: "https://cdn.example/x.mp4", cover: "https://cdn.example/x.jpg"}}`,
responds 200 with
`{ok: true, downloadUrl: "https://cdn.example/x.mp4", thumbnail: "https://cdn.example/x.jpg", raw: <result>}`;
the `findDownloadUrl`-based handler normalizes identically. -/
theorem claimC9_theorem : ∀ _t : String,
    apiDownloadFull (some _t) (fun _ => .ok exProvider)
      = .resp (.success "https://cdn.example/x.mp4" (.str "https://cdn.example/x.jpg") exProvider) ∧
    routeStatus (apiDownloadFull (some _t) (fun _ => .ok exProvider)) = 200 ∧
    apiDownload2 exProvider
      = .success "https://cdn.example/x.mp4" (.str "https://cdn.example/x.jpg") exProvider := by
  intro _t
  have hf : findDownloadUrl (.obj [("noWatermark", .str "https://cdn.example/x.mp4"),
      ("cover", .str "https://cdn.example/x.jpg")]) = some "https://cdn.example/x.mp4" := by
    simp [findDownloadUrl, fdKeys, jsLookup, lookupField, fduKeyCheck, truthy, isObjectType,
      firstTruthy, urlRe, jsIndex0, startsWithChars]
  refine ⟨rfl, rfl, ?_⟩
  simp [apiDownload2, exProvider, jsLookup, lookupField, truthy, isObjectType, firstTruthy, hf]

/-- Claim C10: the upstream header `attachment; filename=%22x.mp4`
percent-decodes to a filename containing a literal double quote, so the
emitted `Content-Disposition` contains an unescaped quote inside its
quoted filename value. -/
theorem claimC10_theorem :
    deriveFilename (some "attachment; filename=%22x.mp4") "/v/123/clip" = "\"x.mp4" ∧
    ("\"x.mp4").data.contains dq = true ∧
    contentDispositionOut "\"x.mp4" = "attachment; filename=\"\"x.mp4\"" :=
  ⟨by decide, by decide, by decide⟩

